import Mathlib

/-!
Verification of the gena static-site generator core: the task-scheduling and
rule-matching runner (gena/runners.py), the job runners (gena/runners.py and
gena/jobs.py), and the file value object (gena/files.py).

The embedding is shallow.  Python exceptions are modelled by an inductive of
the exception kinds the core distinguishes with `isinstance` checks; a function
that may raise returns `Except PyErr _`, and `.error e` models the exception
`e` propagating out of the function (leaving the caller's objects as they
were).  Processors and jobs are opaque callables supplied by configuration
(external collaborators), so they are parameters of type `F → Except PyErr F`
and `σ → Except PyErr σ`; the state type `σ` models the ambient world a job
mutates.  `os.walk` (FileRunner._get_paths) is an external collaborator as
well: the discovered paths appear as an explicit list argument, in discovery
order.  Pattern compilation (fnmatch.translate / re.compile) and attribute
importing happen in external libraries, so a compiled rule carries its matcher
as an opaque predicate `String → Bool`, exactly the shape
`re.compile(...).search` has at the points the runner consults it.
-/

namespace Gena

/-- The Python exception kinds the gena core distinguishes: ValueError
(raised by FileRunner.__init__), TypeError (raised by File.contents and
File.type), JobError and StopProcessing (gena/exceptions.py), UnicodeError
(raised by str.encode / bytes.decode), and a catch-all for anything else. -/
inductive PyErr where
  | valueError (msg : String)
  | typeError (msg : String)
  | jobError (msg : String)
  | stopProcessing (msg : String)
  | unicodeError (msg : String)
  | otherError (msg : String)
deriving DecidableEq, Repr

/-- A processor's bound `process` method: `file -> file`, may raise.
(gena/runners.py line 83 stores `new_processor.process`.) -/
abbrev Proc (F : Type) : Type := F → Except PyErr F

/-- A job callable already bound to its keyword options
(`obj(**options)` in gena/runners.py line 44 and gena/jobs.py line 51). -/
abbrev Job (σ : Type) : Type := σ → Except PyErr σ

/-- gena/runners.py `do_jobs` (lines 24-44): call each job in list order.
There is no try/except here, so any exception a job raises - including
JobError - propagates immediately and the remaining jobs never run. -/
def do_jobs {σ : Type} (s : σ) : List (Job σ) → Except PyErr σ
  | [] => Except.ok s
  | j :: js =>
    match j s with
    | Except.ok s2 => do_jobs s2 js
    | Except.error e => Except.error e

/-- gena/jobs.py `run_jobs` (lines 28-53): call each job in list order, but
catch JobError (`except JobError as e: logger.critical(...)`), log it, and
continue with the next job; other exceptions propagate. -/
def run_jobs {σ : Type} (s : σ) : List (Job σ) → Except PyErr σ
  | [] => Except.ok s
  | j :: js =>
    match j s with
    | Except.ok s2 => run_jobs s2 js
    | Except.error (PyErr.jobError _) => run_jobs s js
    | Except.error e => Except.error e

/-- A compiled rule as built in FileRunner.__init__ (gena/runners.py lines
68-96): a matcher over the normalized path (`re.compile(new_test).search`
wrapped as a Boolean predicate), the list of bound processor methods, the
file factory, and the priority. -/
structure Rule (F : Type) where
  test : String → Bool
  processors : List (Proc F)
  file_factory : String → F
  priority : Int

/-- `settings.RULES or settings.get('PROCESSING_RULES', ())` in
FileRunner.__init__ (line 61): Python `or` yields the second operand when
the first is an empty (falsy) sequence. -/
def resolve_rules {R : Type} (RULES PROCESSING_RULES : List R) : List R :=
  if RULES.isEmpty then PROCESSING_RULES else RULES

/-- FileRunner.__init__ (gena/runners.py lines 60-64): resolve the rule
list and raise `ValueError('no rules are found to process')` when it is
empty; otherwise the compiled rules are available.  Rule compilation itself
(glob-to-regex translation, processor instantiation) happens through
external libraries, so the rules here are already in compiled form.
No source-tree scanning happens at construction time: `_get_paths` is
only invoked from `_get_tasks`, which only `run` calls. -/
def file_runner_init {F : Type} (RULES PROCESSING_RULES : List (Rule F)) :
    Except PyErr (List (Rule F)) :=
  let rules := resolve_rules RULES PROCESSING_RULES
  if rules.isEmpty then
    Except.error (PyErr.valueError "no rules are found to process")
  else
    Except.ok rules

/-- FileRunner._get_rule (gena/runners.py lines 103-106): scan the compiled
rules in list order and return the first whose matcher accepts
`os.path.normcase(path)`; `None` when nothing matches.  `normcase` is the
platform path normalization, passed in as a parameter. -/
def get_rule {F : Type} (normcase : String → String) :
    List (Rule F) → String → Option (Rule F)
  | [], _ => none
  | r :: rs, path =>
    if r.test (normcase path) then some r else get_rule normcase rs path

/-- A task as built in FileRunner._get_tasks (line 116): the file produced
by the claiming rule's factory paired with that rule's processor list. -/
abbrev Task (F : Type) : Type := F × List (Proc F)

/-- A priority-queue entry as built in FileRunner._get_tasks (line 117):
`(rule['priority'], next(counter), task)`. -/
structure Entry (F : Type) where
  priority : Int
  counter : Nat
  task : Task F

/-- The push phase of FileRunner._get_tasks (lines 109-121): walk the
discovered paths in order; for each path claimed by a rule, build the task
and the entry `(priority, next(counter), task)`.  The counter is advanced
only when an entry is created (`next(counter)` sits inside the `if rule:`
branch); unmatched paths are skipped. -/
def build_entries {F : Type} (normcase : String → String) (rules : List (Rule F)) :
    Nat → List String → List (Entry F)
  | _, [] => []
  | c, path :: paths =>
    match get_rule normcase rules path with
    | some r =>
        { priority := r.priority, counter := c,
          task := (r.file_factory path, r.processors) }
          :: build_entries normcase rules (c + 1) paths
    | none => build_entries normcase rules c paths

/-- The order `heapq` uses on the entries: Python tuple comparison on
`(priority, counter, task)`.  Counters are pairwise distinct within one
queue, so the comparison is decided by the first two components and the
task is never compared (the stated purpose of the counter, line 109). -/
def entry_le {F : Type} (a b : Entry F) : Bool :=
  decide (a.priority < b.priority ∨ (a.priority = b.priority ∧ a.counter ≤ b.counter))

/-- One `heapq.heappop`: remove and return the smallest entry.  `heapq`
maintains the invariant that `heappop` returns the minimum of the queue's
contents; we model the queue by its contents and `heappop` by minimum
extraction (first occurrence on ties). -/
def heappop_min {F : Type} : List (Entry F) → Option (Entry F × List (Entry F))
  | [] => none
  | e :: rest =>
    match heappop_min rest with
    | none => some (e, [])
    | some (m, rest2) =>
        if entry_le e m then some (e, rest) else some (m, e :: rest2)

/-- The pop loop of FileRunner._get_tasks (lines 123-129), with explicit
fuel: `heappop` until the queue raises IndexError (is empty).  Each pop
removes exactly one entry, so the loop runs exactly as many times as the
queue has entries; the driver below passes that length as the fuel. -/
def heap_drain_fuel {F : Type} : Nat → List (Entry F) → List (Entry F)
  | 0, _ => []
  | fuel + 1, q =>
    match heappop_min q with
    | none => []
    | some (m, rest) => m :: heap_drain_fuel fuel rest

/-- The pop phase of FileRunner._get_tasks (lines 123-129): repeatedly
`heappop` until the queue is empty, yielding the entries in ascending
`(priority, counter)` order. -/
def heap_drain {F : Type} (q : List (Entry F)) : List (Entry F) :=
  heap_drain_fuel q.length q

/-- FileRunner._get_tasks (gena/runners.py lines 108-129) in full: build an
entry per matched path (counter starting at 0), then drain the heap and
yield the tasks (`entry[2]`). -/
def get_tasks {F : Type} (normcase : String → String) (rules : List (Rule F))
    (paths : List String) : List (Task F) :=
  (heap_drain (build_entries normcase rules 0 paths)).map (fun e => e.task)

/-- The outcome of threading one file through its processor chain (the
inner loop of FileRunner.run, lines 140-145): the chain ran to the end,
or a processor raised StopProcessing (`break`), or a processor raised any
other exception (uncaught, it aborts the run). -/
inductive ChainRes (F : Type) where
  | completed (f : F)
  | stopped (msg : String)
  | fatalErr (e : PyErr)

/-- The inner loop of FileRunner.run (gena/runners.py lines 140-145):
`for processor in processors: try: file = processor(file) except
StopProcessing: break`.  Only StopProcessing is caught; it ends the chain
for this file.  Any other exception propagates. -/
def process_chain {F : Type} (f : F) : List (Proc F) → ChainRes F
  | [] => ChainRes.completed f
  | p :: ps =>
    match p f with
    | Except.ok f2 => process_chain f2 ps
    | Except.error (PyErr.stopProcessing m) => ChainRes.stopped m
    | Except.error e => ChainRes.fatalErr e

/-- The outer loop of FileRunner.run (gena/runners.py lines 137-146): for
each task run its chain; `file_counter += 1` runs whether the chain
completed or was stopped, but an uncaught exception aborts the loop with
no counter returned. -/
def run_tasks {F : Type} : List (Task F) → Except PyErr Nat
  | [] => Except.ok 0
  | t :: ts =>
    match process_chain t.1 t.2 with
    | ChainRes.completed _ => (run_tasks ts).map (fun n => n + 1)
    | ChainRes.stopped _ => (run_tasks ts).map (fun n => n + 1)
    | ChainRes.fatalErr e => Except.error e

/-- FileRunner.run (gena/runners.py lines 131-150): return 0 if there are
no rules; otherwise run the initial jobs (via `do_initial_jobs`, which
calls `do_jobs` - no exception handling), consume the task stream, run the
final jobs, and return the file counter.  An exception from any stage
propagates and aborts the run at that point. -/
def file_runner_run {F σ : Type} (normcase : String → String)
    (rules : List (Rule F)) (paths : List String)
    (initJobs finalJobs : List (Job σ)) (s : σ) : Except PyErr (σ × Nat) :=
  if rules.isEmpty then Except.ok (s, 0)
  else
    match do_jobs s initJobs with
    | Except.error e => Except.error e
    | Except.ok s1 =>
      match run_tasks (get_tasks normcase rules paths) with
      | Except.error e => Except.error e
      | Except.ok n =>
        match do_jobs s1 finalJobs with
        | Except.error e => Except.error e
        | Except.ok s2 => Except.ok (s2, n)

/-- gena/files.py FileType: BINARY or TEXT. -/
inductive FileType where
  | binary
  | text
deriving DecidableEq, Repr

/-- The two kinds of contents a File can hold: a Python str (a sequence of
Unicode code points) or a Python bytes (a sequence of byte values). -/
inductive FileContents where
  | str (s : List Nat)
  | bytes (b : List Nat)
deriving DecidableEq, Repr

/-- An arbitrary Python value assigned to the contents property: a str, a
bytes, None, or anything else (isinstance checks distinguish only
str/bytes from the rest). -/
inductive PyVal where
  | str (s : List Nat)
  | bytes (b : List Nat)
  | noneVal
  | otherVal
deriving DecidableEq, Repr

/-- The state of a gena/files.py File object: `_path` (the mutable target
path), `_opath` (the original path), `_contents` (None until loaded or
assigned), and `_type`.  The meta mapping plays no role in the claims. -/
structure FileState where
  path : String
  opath : String
  contents : Option FileContents
  ftype : FileType
deriving DecidableEq, Repr

/-- The File.contents setter (gena/files.py lines 314-321): for a TEXT
file the value must be a str, for a BINARY file it must be bytes;
otherwise TypeError is raised before `self._contents` is assigned, so an
error result leaves the file object exactly as it was. -/
def set_contents (f : FileState) (v : PyVal) : Except PyErr FileState :=
  match f.ftype with
  | FileType.text =>
    match v with
    | PyVal.str s => Except.ok { f with contents := some (FileContents.str s) }
    | _ => Except.error (PyErr.typeError "contents must be str for text files")
  | FileType.binary =>
    match v with
    | PyVal.bytes b => Except.ok { f with contents := some (FileContents.bytes b) }
    | _ => Except.error (PyErr.typeError "contents must be bytes for binary files")

/-- A Unicode scalar value: a code point that UTF-8 can encode (everything
a Python str can hold except the surrogate range). -/
def isScalar (c : Nat) : Prop := c < 0xD800 ∨ (0xDFFF < c ∧ c < 0x110000)

instance (c : Nat) : Decidable (isScalar c) := by
  unfold isScalar
  infer_instance

/-- UTF-8 encoding of one Unicode scalar value (1 to 4 bytes, per
RFC 3629, which is what Python str.encode with the utf-8 codec emits). -/
def utf8_encode_char (c : Nat) : List Nat :=
  if c < 0x80 then [c]
  else if c < 0x800 then [0xC0 + c / 0x40, 0x80 + c % 0x40]
  else if c < 0x10000 then
    [0xE0 + c / 0x1000, 0x80 + c / 0x40 % 0x40, 0x80 + c % 0x40]
  else
    [0xF0 + c / 0x40000, 0x80 + c / 0x1000 % 0x40, 0x80 + c / 0x40 % 0x40,
      0x80 + c % 0x40]

/-- UTF-8 encoding of a whole string. -/
def utf8_encode (s : List Nat) : List Nat := (s.map utf8_encode_char).flatten

/-- Python str.encode(encoding='utf-8') (used by the File.type setter,
gena/files.py line 344): succeeds for every str without lone surrogates,
raising UnicodeEncodeError otherwise. -/
def str_encode_utf8 (s : List Nat) : Except PyErr (List Nat) :=
  if s.all (fun c => decide (isScalar c)) then Except.ok (utf8_encode s)
  else Except.error (PyErr.unicodeError "surrogates not allowed")

/-- One step of the strict UTF-8 decoder: read one encoded scalar value
from the front of the byte list, rejecting stray continuation bytes,
truncated sequences, overlong forms, surrogates and code points beyond
U+10FFFF. -/
def utf8_decode_step : List Nat → Option (Nat × List Nat)
  | [] => none
  | b0 :: rest =>
    if b0 < 0x80 then some (b0, rest)
    else if b0 < 0xC2 then none
    else if b0 < 0xE0 then
      match rest with
      | b1 :: rest1 =>
        if 0x80 ≤ b1 ∧ b1 < 0xC0 then
          some ((b0 - 0xC0) * 0x40 + (b1 - 0x80), rest1)
        else none
      | [] => none
    else if b0 < 0xF0 then
      match rest with
      | b1 :: b2 :: rest2 =>
        if (0x80 ≤ b1 ∧ b1 < 0xC0) ∧ (0x80 ≤ b2 ∧ b2 < 0xC0) ∧
            (b0 = 0xE0 → 0xA0 ≤ b1) ∧ (b0 = 0xED → b1 < 0xA0) then
          some ((b0 - 0xE0) * 0x1000 + (b1 - 0x80) * 0x40 + (b2 - 0x80), rest2)
        else none
      | _ => none
    else if b0 < 0xF5 then
      match rest with
      | b1 :: b2 :: b3 :: rest3 =>
        if (0x80 ≤ b1 ∧ b1 < 0xC0) ∧ (0x80 ≤ b2 ∧ b2 < 0xC0) ∧
            (0x80 ≤ b3 ∧ b3 < 0xC0) ∧ (b0 = 0xF0 → 0x90 ≤ b1) ∧
            (b0 = 0xF4 → b1 < 0x90) then
          some ((b0 - 0xF0) * 0x40000 + (b1 - 0x80) * 0x1000 +
            (b2 - 0x80) * 0x40 + (b3 - 0x80), rest3)
        else none
      | _ => none
    else none

/-- The decoding loop with explicit fuel: each step consumes at least one
byte, so the byte count (passed as fuel by the driver below) bounds the
number of iterations. -/
def utf8_decode_fuel : Nat → List Nat → Option (List Nat)
  | 0, bs => if bs.isEmpty then some [] else none
  | fuel + 1, bs =>
    match utf8_decode_step bs with
    | some (c, rest2) => (utf8_decode_fuel fuel rest2).map (fun s => c :: s)
    | none => if bs.isEmpty then some [] else none

/-- Python bytes.decode(encoding='utf-8') in strict mode (used by the
File.type setter, gena/files.py line 346): decode scalar values until the
bytes are exhausted; `none` models UnicodeDecodeError. -/
def utf8_decode (bs : List Nat) : Option (List Nat) :=
  utf8_decode_fuel bs.length bs

/-- The File.type setter (gena/files.py lines 339-349): nothing happens if
the type is unchanged; with no loaded contents only the flag changes; str
contents are encoded on TEXT-to-BINARY, bytes contents are decoded on
BINARY-to-TEXT; any other combination raises
`TypeError('unknown or not acceptable type')`. -/
def set_type (f : FileState) (t : FileType) : Except PyErr FileState :=
  if f.ftype = t then Except.ok f
  else
    match f.contents with
    | none => Except.ok { f with ftype := t }
    | some c =>
      match t, c with
      | FileType.binary, FileContents.str s =>
        match str_encode_utf8 s with
        | Except.ok b =>
            Except.ok { f with contents := some (FileContents.bytes b), ftype := t }
        | Except.error e => Except.error e
      | FileType.text, FileContents.bytes b =>
        match utf8_decode b with
        | some s =>
            Except.ok { f with contents := some (FileContents.str s), ftype := t }
        | none => Except.error (PyErr.unicodeError "invalid utf-8")
      | _, _ => Except.error (PyErr.typeError "unknown or not acceptable type")

/-- os.path.dirname for POSIX paths (posixpath.dirname): everything up to
the last separator, with trailing separators stripped unless the result
consists of separators only. -/
def dirname (p : String) : String :=
  let head := ((p.data.reverse).dropWhile (fun c => c ≠ '/')).reverse
  if head ≠ [] ∧ head.any (fun c => c ≠ '/') then
    String.mk (((head.reverse).dropWhile (fun c => c = '/')).reverse)
  else
    String.mk head

/-- The file-system facts File.save consults: which paths exist, the
realpath resolution FilePath.__eq__ compares with, and the on-disk
contents of the original path (read lazily by the File.contents getter,
in text or binary mode). -/
structure World where
  pathExists : String → Bool
  realpath : String → String
  readText : String → List Nat
  readBytes : String → List Nat

/-- FilePath.__eq__ (gena/files.py lines 123-126): two FilePath values are
equal when their realpaths coincide. -/
def filepath_eq (w : World) (a b : String) : Bool :=
  w.realpath a == w.realpath b

/-- The side effects File.save can perform on the file system. -/
inductive FsEffect where
  | makedirs (dir : String)
  | write (path : String) (append : Bool) (ftype : FileType) (data : FileContents)
  | copy (src : String) (dst : String)
deriving DecidableEq, Repr

/-- The outcome of File.save: the returned Boolean, the file-system
effects performed in order, and the file object's state afterwards. -/
structure SaveResult where
  ret : Bool
  effects : List FsEffect
  file : FileState
deriving DecidableEq, Repr

/-- File.save (gena/files.py lines 357-390).  When the original path still
exists and the target path equals it (FilePath.__eq__), save returns False
immediately: no directory creation, no write, no copy, no contents
change.  Otherwise it creates the target directory if needed, then either
writes the (possibly lazily loaded) contents and clears them, or copies
the original file; either way `_opath` becomes the target path and save
returns True. -/
def file_save (w : World) (f : FileState) (append : Bool) : SaveResult :=
  if w.pathExists f.opath ∧ filepath_eq w f.path f.opath then
    { ret := false, effects := [], file := f }
  else
    let mkEffs : List FsEffect :=
      if w.pathExists f.path then []
      else if dirname f.path ≠ "" ∧ ¬ w.pathExists (dirname f.path) then
        [FsEffect.makedirs (dirname f.path)]
      else []
    if append ∨ f.contents ≠ none then
      let data : FileContents :=
        match f.contents with
        | some c => c
        | none =>
          match f.ftype with
          | FileType.text => FileContents.str (w.readText f.opath)
          | FileType.binary => FileContents.bytes (w.readBytes f.opath)
      { ret := true,
        effects := mkEffs ++ [FsEffect.write f.path append f.ftype data],
        file := { f with contents := none, opath := f.path } }
    else
      { ret := true,
        effects := mkEffs ++ [FsEffect.copy f.opath f.path],
        file := { f with opath := f.path } }

theorem heappop_min_eq_none {F : Type} {q : List (Entry F)}
    (h : heappop_min q = none) : q = [] := by
  cases q with
  | nil => rfl
  | cons e rest =>
    simp only [heappop_min] at h
    cases hrest : heappop_min rest with
    | none => rw [hrest] at h; simp at h
    | some p =>
      obtain ⟨m2, r2⟩ := p
      rw [hrest] at h
      by_cases hle : entry_le e m2 <;> simp [hle] at h

theorem heappop_min_length {F : Type} :
    ∀ {q : List (Entry F)} {m : Entry F} {r : List (Entry F)},
      heappop_min q = some (m, r) → q.length = r.length + 1 := by
  intro q
  induction q with
  | nil => intro m r h; simp [heappop_min] at h
  | cons e rest ih =>
    intro m r h
    simp only [heappop_min] at h
    cases hrest : heappop_min rest with
    | none =>
      rw [hrest] at h
      simp at h
      have hnil := heappop_min_eq_none hrest
      subst hnil
      simp [← h.2]
    | some p =>
      rw [hrest] at h
      obtain ⟨m2, rest2⟩ := p
      by_cases hle : entry_le e m2
      · simp [hle] at h
        simp [← h.2]
      · simp [hle] at h
        have := ih hrest
        simp [← h.2, this]

theorem heappop_min_perm {F : Type} :
    ∀ {q : List (Entry F)} {m : Entry F} {r : List (Entry F)},
      heappop_min q = some (m, r) → q.Perm (m :: r) := by
  intro q
  induction q with
  | nil => intro m r h; simp [heappop_min] at h
  | cons e rest ih =>
    intro m r h
    simp only [heappop_min] at h
    cases hrest : heappop_min rest with
    | none =>
      rw [hrest] at h
      simp at h
      have hnil := heappop_min_eq_none hrest
      subst hnil
      rw [← h.1, ← h.2]
    | some p =>
      rw [hrest] at h
      obtain ⟨m2, rest2⟩ := p
      by_cases hle : entry_le e m2
      · simp [hle] at h
        rw [← h.1, ← h.2]
      · simp [hle] at h
        have hperm := ih hrest
        have h1 : (e :: rest).Perm (e :: m2 :: rest2) := List.Perm.cons e hperm
        have h2 : (e :: m2 :: rest2).Perm (m2 :: e :: rest2) := List.Perm.swap m2 e rest2
        rw [← h.1, ← h.2]
        exact h1.trans h2

theorem entry_le_total {F : Type} (a b : Entry F) :
    entry_le a b = true ∨ entry_le b a = true := by
  simp only [entry_le, decide_eq_true_eq]
  omega

theorem entry_le_trans {F : Type} {a b c : Entry F}
    (h1 : entry_le a b = true) (h2 : entry_le b c = true) :
    entry_le a c = true := by
  simp only [entry_le, decide_eq_true_eq] at h1 h2 ⊢
  omega

theorem heappop_min_le {F : Type} :
    ∀ {q : List (Entry F)} {m : Entry F} {r : List (Entry F)},
      heappop_min q = some (m, r) → ∀ x ∈ r, entry_le m x = true := by
  intro q
  induction q with
  | nil => intro m r h; simp [heappop_min] at h
  | cons e rest ih =>
    intro m r h
    simp only [heappop_min] at h
    cases hrest : heappop_min rest with
    | none =>
      rw [hrest] at h
      simp at h
      intro x hx
      rw [h.2] at hx
      exact absurd hx (List.not_mem_nil x)
    | some p =>
      rw [hrest] at h
      obtain ⟨m2, rest2⟩ := p
      by_cases hle : entry_le e m2
      · simp [hle] at h
        intro x hx
        rw [← h.2] at hx
        have hxperm := (heappop_min_perm hrest).mem_iff.mp hx
        simp at hxperm
        rcases hxperm with hx2 | hx2
        · rw [← h.1, hx2]; exact hle
        · rw [← h.1]
          exact entry_le_trans hle (ih hrest x hx2)
      · simp [hle] at h
        intro x hx
        rw [← h.2] at hx
        simp at hx
        rcases hx with hx2 | hx2
        · rw [← h.1, hx2]
          rcases entry_le_total e m2 with ht | ht
          · exact absurd ht hle
          · exact ht
        · rw [← h.1]
          exact ih hrest x hx2

theorem heap_drain_nil {F : Type} : heap_drain ([] : List (Entry F)) = [] := rfl

theorem heap_drain_eq_pop {F : Type} {q : List (Entry F)} {m : Entry F}
    {rest : List (Entry F)} (h : heappop_min q = some (m, rest)) :
    heap_drain q = m :: heap_drain rest := by
  have hlen := heappop_min_length h
  unfold heap_drain
  rw [hlen]
  simp only [heap_drain_fuel]
  rw [h]

theorem heap_drain_perm {F : Type} (q : List (Entry F)) : (heap_drain q).Perm q := by
  have H : ∀ (n : Nat) (q : List (Entry F)), q.length ≤ n → (heap_drain q).Perm q := by
    intro n
    induction n with
    | zero =>
      intro q hq
      have hq0 : q = [] := List.eq_nil_of_length_eq_zero (Nat.le_zero.mp hq)
      subst hq0
      rw [heap_drain_nil]
    | succ n ih =>
      intro q hq
      cases hpop : heappop_min q with
      | none =>
        have hq0 := heappop_min_eq_none hpop
        subst hq0
        rw [heap_drain_nil]
      | some p =>
        obtain ⟨m, rest⟩ := p
        rw [heap_drain_eq_pop hpop]
        have hlen := heappop_min_length hpop
        have hperm := ih rest (by omega)
        exact (List.Perm.cons m hperm).trans (heappop_min_perm hpop).symm
  exact H q.length q (le_refl _)

theorem heap_drain_pairwise {F : Type} (q : List (Entry F)) :
    (heap_drain q).Pairwise (fun a b => entry_le a b = true) := by
  have H : ∀ (n : Nat) (q : List (Entry F)), q.length ≤ n →
      (heap_drain q).Pairwise (fun a b => entry_le a b = true) := by
    intro n
    induction n with
    | zero =>
      intro q hq
      have hq0 : q = [] := List.eq_nil_of_length_eq_zero (Nat.le_zero.mp hq)
      subst hq0
      rw [heap_drain_nil]
      exact List.Pairwise.nil
    | succ n ih =>
      intro q hq
      cases hpop : heappop_min q with
      | none =>
        have hq0 := heappop_min_eq_none hpop
        subst hq0
        rw [heap_drain_nil]
        exact List.Pairwise.nil
      | some p =>
        obtain ⟨m, rest⟩ := p
        rw [heap_drain_eq_pop hpop]
        have hlen := heappop_min_length hpop
        refine List.Pairwise.cons ?_ (ih rest (by omega))
        intro b hb
        have hbrest : b ∈ rest := (heap_drain_perm rest).mem_iff.mp hb
        exact heappop_min_le hpop b hbrest
  exact H q.length q (le_refl _)

theorem build_entries_counters {F : Type} (normcase : String → String)
    (rules : List (Rule F)) :
    ∀ (paths : List String) (c : Nat),
      (build_entries normcase rules c paths).map Entry.counter =
        List.range' c (build_entries normcase rules c paths).length := by
  intro paths
  induction paths with
  | nil => intro c; simp [build_entries]
  | cons p ps ih =>
    intro c
    simp only [build_entries]
    cases hr : get_rule normcase rules p with
    | none => exact ih c
    | some r =>
      simp only [List.map_cons, List.length_cons, ih (c + 1)]
      rw [List.range'_succ]

set_option maxRecDepth 4096 in
theorem utf8_decode_step_length :
    ∀ {bs : List Nat} {c : Nat} {r : List Nat},
      utf8_decode_step bs = some (c, r) → r.length < bs.length := by
  intro bs c r h
  cases bs with
  | nil => simp [utf8_decode_step] at h
  | cons b0 rest =>
    simp only [utf8_decode_step] at h
    repeat' split at h
    all_goals cases h
    all_goals simp only [List.length_cons]
    all_goals omega

theorem utf8_decode_fuel_congr :
    ∀ (fuel1 fuel2 : Nat) (bs : List Nat), bs.length ≤ fuel1 → bs.length ≤ fuel2 →
      utf8_decode_fuel fuel1 bs = utf8_decode_fuel fuel2 bs := by
  intro fuel1
  induction fuel1 with
  | zero =>
    intro fuel2 bs h1 h2
    have hb : bs = [] := List.eq_nil_of_length_eq_zero (Nat.le_zero.mp h1)
    subst hb
    cases fuel2 <;> rfl
  | succ fuel ih =>
    intro fuel2 bs h1 h2
    cases fuel2 with
    | zero =>
      have hb : bs = [] := List.eq_nil_of_length_eq_zero (Nat.le_zero.mp h2)
      subst hb
      rfl
    | succ f2 =>
      cases hstep : utf8_decode_step bs with
      | none => simp only [utf8_decode_fuel, hstep]
      | some p =>
        obtain ⟨c, r⟩ := p
        have hr := utf8_decode_step_length hstep
        simp only [utf8_decode_fuel, hstep]
        rw [ih f2 r (by omega) (by omega)]

theorem utf8_decode_nil : utf8_decode [] = some [] := rfl

theorem utf8_decode_of_step_some {bs : List Nat} {c : Nat} {r : List Nat}
    (h : utf8_decode_step bs = some (c, r)) :
    utf8_decode bs = (utf8_decode r).map (fun s => c :: s) := by
  have hr := utf8_decode_step_length h
  cases bs with
  | nil => simp [utf8_decode_step] at h
  | cons b0 rest =>
    unfold utf8_decode
    simp only [List.length_cons, utf8_decode_fuel, h]
    rw [utf8_decode_fuel_congr rest.length r.length r (by simp at hr; omega) (le_refl _)]

theorem utf8_step_one {b0 : Nat} (rest : List Nat) (h : b0 < 0x80) :
    utf8_decode_step (b0 :: rest) = some (b0, rest) := by
  simp only [utf8_decode_step]
  rw [if_pos h]

theorem utf8_step_two {b0 b1 : Nat} (rest : List Nat)
    (hb0 : 0xC2 ≤ b0 ∧ b0 < 0xE0) (hb1 : 0x80 ≤ b1 ∧ b1 < 0xC0) :
    utf8_decode_step (b0 :: b1 :: rest) =
      some ((b0 - 0xC0) * 0x40 + (b1 - 0x80), rest) := by
  simp only [utf8_decode_step]
  rw [if_neg (show ¬ b0 < 0x80 by omega), if_neg (show ¬ b0 < 0xC2 by omega),
    if_pos (show b0 < 0xE0 by omega), if_pos hb1]

theorem utf8_step_three {b0 b1 b2 : Nat} (rest : List Nat)
    (hb0 : 0xE0 ≤ b0 ∧ b0 < 0xF0)
    (hc : (0x80 ≤ b1 ∧ b1 < 0xC0) ∧ (0x80 ≤ b2 ∧ b2 < 0xC0) ∧
      (b0 = 0xE0 → 0xA0 ≤ b1) ∧ (b0 = 0xED → b1 < 0xA0)) :
    utf8_decode_step (b0 :: b1 :: b2 :: rest) =
      some ((b0 - 0xE0) * 0x1000 + (b1 - 0x80) * 0x40 + (b2 - 0x80), rest) := by
  simp only [utf8_decode_step]
  rw [if_neg (show ¬ b0 < 0x80 by omega), if_neg (show ¬ b0 < 0xC2 by omega),
    if_neg (show ¬ b0 < 0xE0 by omega), if_pos (show b0 < 0xF0 by omega), if_pos hc]

theorem utf8_step_four {b0 b1 b2 b3 : Nat} (rest : List Nat)
    (hb0 : 0xF0 ≤ b0 ∧ b0 < 0xF5)
    (hc : (0x80 ≤ b1 ∧ b1 < 0xC0) ∧ (0x80 ≤ b2 ∧ b2 < 0xC0) ∧
      (0x80 ≤ b3 ∧ b3 < 0xC0) ∧ (b0 = 0xF0 → 0x90 ≤ b1) ∧ (b0 = 0xF4 → b1 < 0x90)) :
    utf8_decode_step (b0 :: b1 :: b2 :: b3 :: rest) =
      some ((b0 - 0xF0) * 0x40000 + (b1 - 0x80) * 0x1000 +
        (b2 - 0x80) * 0x40 + (b3 - 0x80), rest) := by
  simp only [utf8_decode_step]
  rw [if_neg (show ¬ b0 < 0x80 by omega), if_neg (show ¬ b0 < 0xC2 by omega),
    if_neg (show ¬ b0 < 0xE0 by omega), if_neg (show ¬ b0 < 0xF0 by omega),
    if_pos (show b0 < 0xF5 by omega), if_pos hc]

theorem utf8_decode_encode_char (c : Nat) (h : isScalar c) (rest : List Nat) :
    utf8_decode (utf8_encode_char c ++ rest) = (utf8_decode rest).map (fun s => c :: s) := by
  unfold isScalar at h
  by_cases h1 : c < 0x80
  · rw [show utf8_encode_char c = [c] from by simp [utf8_encode_char, h1]]
    simp only [List.cons_append, List.nil_append]
    rw [utf8_decode_of_step_some (utf8_step_one rest h1)]
  · by_cases h2 : c < 0x800
    · rw [show utf8_encode_char c = [0xC0 + c / 0x40, 0x80 + c % 0x40] from by
        simp [utf8_encode_char, h1, h2]]
      simp only [List.cons_append, List.nil_append]
      rw [utf8_decode_of_step_some (utf8_step_two rest (by omega) (by omega))]
      have hval : (0xC0 + c / 0x40 - 0xC0) * 0x40 + (0x80 + c % 0x40 - 0x80) = c := by
        omega
      rw [hval]
    · by_cases h3 : c < 0x10000
      · rw [show utf8_encode_char c =
            [0xE0 + c / 0x1000, 0x80 + c / 0x40 % 0x40, 0x80 + c % 0x40] from by
          simp [utf8_encode_char, h1, h2, h3]]
        simp only [List.cons_append, List.nil_append]
        rw [utf8_decode_of_step_some (utf8_step_three rest (by omega) (by omega))]
        have hval : (0xE0 + c / 0x1000 - 0xE0) * 0x1000 +
            (0x80 + c / 0x40 % 0x40 - 0x80) * 0x40 + (0x80 + c % 0x40 - 0x80) = c := by
          omega
        rw [hval]
      · rw [show utf8_encode_char c =
            [0xF0 + c / 0x40000, 0x80 + c / 0x1000 % 0x40, 0x80 + c / 0x40 % 0x40,
              0x80 + c % 0x40] from by simp [utf8_encode_char, h1, h2, h3]]
        simp only [List.cons_append, List.nil_append]
        rw [utf8_decode_of_step_some (utf8_step_four rest (by omega) (by omega))]
        have hval : (0xF0 + c / 0x40000 - 0xF0) * 0x40000 +
            (0x80 + c / 0x1000 % 0x40 - 0x80) * 0x1000 +
            (0x80 + c / 0x40 % 0x40 - 0x80) * 0x40 + (0x80 + c % 0x40 - 0x80) = c := by
          omega
        rw [hval]

theorem utf8_decode_encode (s : List Nat) (h : ∀ c ∈ s, isScalar c) :
    utf8_decode (utf8_encode s) = some s := by
  induction s with
  | nil => simp [utf8_encode, utf8_decode_nil]
  | cons c cs ih =>
    have hc : isScalar c := h c (List.mem_cons_self c cs)
    have hcs : ∀ x ∈ cs, isScalar x := fun x hx => h x (List.mem_cons_of_mem c hx)
    have hstep : utf8_encode (c :: cs) = utf8_encode_char c ++ utf8_encode cs := by
      simp [utf8_encode]
    rw [hstep, utf8_decode_encode_char c hc, ih hcs]
    rfl

/-- C1: for every set of discovered paths and compiled rules, the scheduler
emits all tasks (the drained sequence is a permutation of the inserted
entries, and the emitted tasks are exactly the drained entries' tasks in
that order), in ascending rule priority with FIFO tie-break on the
insertion counter (pairwise: strictly smaller priority, or equal priority
and strictly smaller counter), where the counters record discovery order
(they are 0, 1, 2, ... over the matched paths in discovery order).  The
order is a single global interleaving, never grouped per rule: the
pairwise clause constrains every pair of emitted entries, whatever rule
each came from. -/
theorem scheduler_emits_priority_fifo_order {F : Type}
    (normcase : String → String) (rules : List (Rule F)) (paths : List String) :
    (heap_drain (build_entries normcase rules 0 paths)).Perm
      (build_entries normcase rules 0 paths) ∧
    (heap_drain (build_entries normcase rules 0 paths)).Pairwise
      (fun a b => a.priority < b.priority ∨
        (a.priority = b.priority ∧ a.counter < b.counter)) ∧
    (build_entries normcase rules 0 paths).map Entry.counter =
      List.range (build_entries normcase rules 0 paths).length ∧
    get_tasks normcase rules paths =
      (heap_drain (build_entries normcase rules 0 paths)).map Entry.task := by
  refine ⟨heap_drain_perm _, ?_, ?_, rfl⟩
  · have hsort := heap_drain_pairwise (build_entries normcase rules 0 paths)
    have hcnt := build_entries_counters normcase rules paths 0
    have hlt : (build_entries normcase rules 0 paths).Pairwise
        (fun a b => a.counter < b.counter) := by
      have hr := List.pairwise_lt_range' 0
        (build_entries normcase rules 0 paths).length
      rw [← hcnt] at hr
      exact List.pairwise_map.mp hr
    have hperm := heap_drain_perm (build_entries normcase rules 0 paths)
    have hne : (heap_drain (build_entries normcase rules 0 paths)).Pairwise
        (fun a b => a.counter ≠ b.counter) := by
      have h1 : (build_entries normcase rules 0 paths).Pairwise
          (fun a b => a.counter ≠ b.counter) :=
        hlt.imp (fun hab => Nat.ne_of_lt hab)
      exact (List.Perm.pairwise_iff (fun hxy => Ne.symm hxy) hperm).mpr h1
    refine (hsort.and hne).imp ?_
    intro a b hab
    obtain ⟨hle, hneq⟩ := hab
    simp only [entry_le, decide_eq_true_eq] at hle
    omega
  · rw [build_entries_counters normcase rules paths 0, List.range_eq_range']

/-- C2: for every discovered path, rules are evaluated in compiled list
order and the first rule whose predicate matches the normalized path
claims the file: there is an index i holding the returned rule, its test
matches, and every earlier rule's test fails (later rules are
unconstrained - they may match too, first match wins); moreover the task
built for the path uses exactly the claiming rule's file factory and
processor chain. -/
theorem first_match_wins {F : Type} (normcase : String → String)
    (rules : List (Rule F)) (path : String) (r : Rule F)
    (h : get_rule normcase rules path = some r) :
    (∃ i, rules.get? i = some r ∧ r.test (normcase path) = true ∧
      ∀ j rj, j < i → rules.get? j = some rj → rj.test (normcase path) = false) ∧
    ∀ c, build_entries normcase rules c [path] =
      [{ priority := r.priority, counter := c,
         task := (r.file_factory path, r.processors) }] := by
  constructor
  · induction rules with
    | nil => simp [get_rule] at h
    | cons r0 rs ih =>
      by_cases h0 : r0.test (normcase path) = true
      · have hr : r0 = r := by
          simp [get_rule, h0] at h
          exact h
        refine ⟨0, by simp [hr], by rw [← hr]; exact h0, ?_⟩
        intro j rj hj
        omega
      · have h2 : get_rule normcase rs path = some r := by
          simpa [get_rule, h0] using h
        obtain ⟨i, hi, ht, hlt⟩ := ih h2
        refine ⟨i + 1, by simpa using hi, ht, ?_⟩
        intro j rj hj hget
        cases j with
        | zero =>
          simp at hget
          rw [← hget]
          simpa using h0
        | succ j2 =>
          exact hlt j2 rj (by omega) (by simpa using hget)
  · intro c
    simp [build_entries, h]

/-- Witness for `first_match_wins`: two rules whose patterns both match the
path "a.md"; the lookup returns the first, and the task carries the first
rule's factory and processors even though the second rule matches too. -/
theorem first_match_wins_witness :
    (∃ i, [({ test := fun _ => true, processors := [],
              file_factory := fun _ => (1 : Nat), priority := 10 } : Rule Nat),
           { test := fun _ => true, processors := [],
             file_factory := fun _ => 2, priority := 20 }].get? i =
        some { test := fun _ => true, processors := [],
               file_factory := fun _ => (1 : Nat), priority := 10 } ∧
      ({ test := fun _ => true, processors := [],
         file_factory := fun _ => (1 : Nat), priority := 10 } : Rule Nat).test
          (id "a.md") = true ∧
      ∀ j rj, j < i →
        [({ test := fun _ => true, processors := [],
            file_factory := fun _ => (1 : Nat), priority := 10 } : Rule Nat),
         { test := fun _ => true, processors := [],
           file_factory := fun _ => 2, priority := 20 }].get? j = some rj →
        rj.test (id "a.md") = false) ∧
    ∀ c, build_entries id
      [({ test := fun _ => true, processors := [],
          file_factory := fun _ => (1 : Nat), priority := 10 } : Rule Nat),
       { test := fun _ => true, processors := [],
         file_factory := fun _ => 2, priority := 20 }] c ["a.md"] =
      [{ priority := 10, counter := c, task := (1, []) }] :=
  first_match_wins id _ "a.md" _ rfl

/-- C3: the claim says the job runner used by the file-processing pass
catches the job error, logs it, and still runs the remaining jobs.  The
code contradicts it: FileRunner.run calls do_initial_jobs/do_final_jobs
(gena/runners.py lines 47-56), which delegate to `do_jobs` - and `do_jobs`
has no try/except, so a JobError propagates, the sibling job never runs,
and the whole run aborts.  The intended behavior does exist in the
repository: gena/jobs.py `run_jobs` catches JobError exactly as the claim
describes (second conjunct), but FileRunner does not use it.  Concretely:
with a job list [job raising JobError "boom", job appending 2 to the
state], `do_jobs` returns the JobError and the state never receives 2,
`run_jobs` returns the state [2], and a full `FileRunner.run` with that
initial job list aborts with the JobError. -/
theorem file_runner_job_error_not_caught :
    do_jobs ([] : List Nat)
      [fun _ => Except.error (PyErr.jobError "boom"),
       fun s => Except.ok (s ++ [2])] = Except.error (PyErr.jobError "boom") ∧
    run_jobs ([] : List Nat)
      [fun _ => Except.error (PyErr.jobError "boom"),
       fun s => Except.ok (s ++ [2])] = Except.ok [2] ∧
    file_runner_run (F := Nat) (σ := List Nat) id
      [{ test := fun _ => true, processors := [],
         file_factory := fun _ => 0, priority := 0 }]
      []
      [fun _ => Except.error (PyErr.jobError "boom"), fun s => Except.ok (s ++ [2])]
      [] [] = Except.error (PyErr.jobError "boom") :=
  ⟨rfl, rfl, rfl⟩

/-- C4: if a processor raises the stop-processing condition, the chain for
that file ends at that processor (whatever processors remain), every
subsequent task runs exactly as it would on its own (the tail result is
the independent `run_tasks ts`), and the stopped file still counts: the
total is the tail's count plus one. -/
theorem stop_processing_isolated {F : Type} (f : F) (p : Proc F)
    (ps : List (Proc F)) (msg : String) (ts : List (Task F))
    (h : p f = Except.error (PyErr.stopProcessing msg)) :
    process_chain f (p :: ps) = ChainRes.stopped msg ∧
    run_tasks ((f, p :: ps) :: ts) = (run_tasks ts).map (fun n => n + 1) := by
  have hchain : process_chain f (p :: ps) = ChainRes.stopped msg := by
    simp only [process_chain]
    rw [h]
  exact ⟨hchain, by simp [run_tasks, hchain]⟩

/-- Witness for `stop_processing_isolated`: the first task's chain raises
the stop signal at its first processor (a second processor remains
unexecuted); the second task's full chain still runs and the stopped file
is counted. -/
theorem stop_processing_isolated_witness :
    process_chain (0 : Nat)
      [fun _ => Except.error (PyErr.stopProcessing "stop"),
       fun n => Except.ok (n + 1)] = ChainRes.stopped "stop" ∧
    run_tasks (((0 : Nat),
        [fun _ => Except.error (PyErr.stopProcessing "stop"),
         fun n => Except.ok (n + 1)]) ::
      [((5 : Nat), [fun n => Except.ok (n * 2)])]) =
      (run_tasks [((5 : Nat), [fun n => Except.ok (n * 2)])]).map (fun n => n + 1) :=
  stop_processing_isolated 0 _ _ "stop" _ rfl

theorem run_tasks_append_fatal {F : Type} {ts1 : List (Task F)} {n : Nat}
    {f : F} {ps : List (Proc F)} {e : PyErr} (ts2 : List (Task F))
    (h1 : run_tasks ts1 = Except.ok n)
    (hf : process_chain f ps = ChainRes.fatalErr e) :
    run_tasks (ts1 ++ (f, ps) :: ts2) = Except.error e := by
  induction ts1 generalizing n with
  | nil =>
    simp only [List.nil_append, run_tasks]
    rw [hf]
  | cons t ts ih =>
    cases hc : process_chain t.1 t.2 with
    | completed f2 =>
      simp only [run_tasks, hc] at h1
      cases hr : run_tasks ts with
      | error e2 => rw [hr] at h1; simp [Except.map] at h1
      | ok m =>
        have hrec := ih hr
        simp [run_tasks, hc, hrec, Except.map]
    | stopped m2 =>
      simp only [run_tasks, hc] at h1
      cases hr : run_tasks ts with
      | error e2 => rw [hr] at h1; simp [Except.map] at h1
      | ok m =>
        have hrec := ih hr
        simp [run_tasks, hc, hrec, Except.map]
    | fatalErr e2 =>
      simp only [run_tasks, hc] at h1
      simp at h1

/-- C5: if a processor raises any error other than the stop-processing
condition, the executor does not catch it: for any prefix of tasks that
ran without a fatal error, the whole stream evaluates to that error (the
tasks after the failing one never influence the result - they are not
executed - and there is no normal count), and the full run() returns the
same error to its caller. -/
theorem fatal_error_propagates {F σ : Type} (normcase : String → String)
    (rules : List (Rule F)) (paths : List String)
    (initJobs finalJobs : List (Job σ)) (s s1 : σ) (e : PyErr)
    (ts1 : List (Task F)) (f : F) (ps : List (Proc F)) (ts2 : List (Task F)) (n : Nat)
    (h1 : run_tasks ts1 = Except.ok n)
    (hf : process_chain f ps = ChainRes.fatalErr e) :
    run_tasks (ts1 ++ (f, ps) :: ts2) = Except.error e ∧
    (rules ≠ [] → do_jobs s initJobs = Except.ok s1 →
      get_tasks normcase rules paths = ts1 ++ (f, ps) :: ts2 →
      file_runner_run normcase rules paths initJobs finalJobs s = Except.error e) := by
  have hmain := run_tasks_append_fatal ts2 h1 hf
  refine ⟨hmain, ?_⟩
  intro hr hj hts
  have hre : rules.isEmpty = false := by
    cases rules with
    | nil => exact absurd rfl hr
    | cons a as => rfl
  simp only [file_runner_run, hre, Bool.false_eq_true, if_false, hj, hts, hmain]

/-- Witness for `fatal_error_propagates`: one rule whose single processor
raises a generic (non-stop) error; the scheduled stream for the one
discovered path evaluates to that error, and the full run with a pending
final job aborts with it (the final job never contributes). -/
theorem fatal_error_propagates_witness :
    run_tasks ([] ++ ((0 : Nat),
        [fun _ => Except.error (PyErr.otherError "boom")]) :: []) =
      Except.error (PyErr.otherError "boom") ∧
    file_runner_run (σ := List Nat) id
      [{ test := fun _ => true,
         processors := [fun _ => Except.error (PyErr.otherError "boom")],
         file_factory := fun _ => (0 : Nat), priority := 0 }]
      ["a"] [] [fun s => Except.ok (s ++ [7])] [] =
      Except.error (PyErr.otherError "boom") := by
  have h := fatal_error_propagates (σ := List Nat) id
    [{ test := fun _ => true,
       processors := [fun _ => Except.error (PyErr.otherError "boom")],
       file_factory := fun _ => (0 : Nat), priority := 0 }]
    ["a"] [] [fun s => Except.ok (s ++ [7])] [] []
    (PyErr.otherError "boom") [] 0
    [fun _ => Except.error (PyErr.otherError "boom")] [] 0 rfl rfl
  exact ⟨h.1, h.2 (by simp) rfl rfl⟩

/-- C6: if the configured rule list (settings.RULES, falling back to
settings.PROCESSING_RULES) resolves to zero rules, constructing the
runner fails with ValueError("no rules are found to process"); the
constructor performs no scanning (the embedding of __init__ takes no
paths at all - _get_paths is reachable only through run), so no file is
processed. -/
theorem empty_rules_rejected {F : Type} (RULES PROCESSING_RULES : List (Rule F))
    (h : resolve_rules RULES PROCESSING_RULES = []) :
    file_runner_init RULES PROCESSING_RULES =
      Except.error (PyErr.valueError "no rules are found to process") := by
  simp [file_runner_init, h]

/-- Witness for `empty_rules_rejected`: both configured lists empty. -/
theorem empty_rules_rejected_witness :
    resolve_rules ([] : List (Rule Nat)) [] = [] ∧
    file_runner_init ([] : List (Rule Nat)) [] =
      Except.error (PyErr.valueError "no rules are found to process") :=
  ⟨rfl, empty_rules_rejected [] [] rfl⟩

/-- C7: a discovered path that matches no rule produces no task and does
not advance the counter: the entries built from any discovery sequence
containing it equal the entries built with it removed, and consequently
the whole run (jobs, processed count, errors) is identical with and
without the unmatched path. -/
theorem unmatched_path_skipped {F σ : Type} (normcase : String → String)
    (rules : List (Rule F)) (p : String)
    (h : get_rule normcase rules p = none) :
    (∀ c xs ys, build_entries normcase rules c (xs ++ p :: ys) =
      build_entries normcase rules c (xs ++ ys)) ∧
    (∀ xs ys (initJobs finalJobs : List (Job σ)) s,
      file_runner_run normcase rules (xs ++ p :: ys) initJobs finalJobs s =
        file_runner_run normcase rules (xs ++ ys) initJobs finalJobs s) := by
  have hb : ∀ c xs ys, build_entries normcase rules c (xs ++ p :: ys) =
      build_entries normcase rules c (xs ++ ys) := by
    intro c xs
    induction xs generalizing c with
    | nil =>
      intro ys
      simp [build_entries, h]
    | cons x xs2 ih =>
      intro ys
      simp only [List.cons_append, build_entries]
      cases hx : get_rule normcase rules x with
      | none => exact ih c ys
      | some r => exact congrArg _ (ih (c + 1) ys)
  refine ⟨hb, ?_⟩
  intro xs ys initJobs finalJobs s
  have hg : get_tasks normcase rules (xs ++ p :: ys) =
      get_tasks normcase rules (xs ++ ys) := by
    unfold get_tasks
    rw [hb 0 xs ys]
  simp only [file_runner_run, hg]

/-- Witness for `unmatched_path_skipped`: a single rule whose pattern
rejects everything, and the path "skip.me". -/
theorem unmatched_path_skipped_witness :
    (∀ c xs ys, build_entries id
        [({ test := fun _ => false, processors := [],
            file_factory := fun _ => (0 : Nat), priority := 0 } : Rule Nat)]
        c (xs ++ "skip.me" :: ys) =
      build_entries id
        [({ test := fun _ => false, processors := [],
            file_factory := fun _ => (0 : Nat), priority := 0 } : Rule Nat)]
        c (xs ++ ys)) ∧
    (∀ xs ys (initJobs finalJobs : List (Job Nat)) s,
      file_runner_run id
        [({ test := fun _ => false, processors := [],
            file_factory := fun _ => (0 : Nat), priority := 0 } : Rule Nat)]
        (xs ++ "skip.me" :: ys) initJobs finalJobs s =
      file_runner_run id
        [({ test := fun _ => false, processors := [],
            file_factory := fun _ => (0 : Nat), priority := 0 } : Rule Nat)]
        (xs ++ ys) initJobs finalJobs s) :=
  unmatched_path_skipped id _ "skip.me" rfl

/-- C8: assigning contents whose type does not match the file's mode is
rejected at the point of assignment with a TypeError: a non-str value on a
TEXT file and a non-bytes value on a BINARY file both produce the error
immediately.  The error result carries no new file state - it models the
exception raised before `self._contents` is assigned - so the stored
contents are exactly what they were. -/
theorem contents_type_mismatch_rejected (f : FileState) (v : PyVal) :
    (f.ftype = FileType.text → (∀ s, v ≠ PyVal.str s) →
      set_contents f v =
        Except.error (PyErr.typeError "contents must be str for text files")) ∧
    (f.ftype = FileType.binary → (∀ b, v ≠ PyVal.bytes b) →
      set_contents f v =
        Except.error (PyErr.typeError "contents must be bytes for binary files")) := by
  constructor
  · intro ht hv
    cases v with
    | str s => exact absurd rfl (hv s)
    | bytes b => simp [set_contents, ht]
    | noneVal => simp [set_contents, ht]
    | otherVal => simp [set_contents, ht]
  · intro ht hv
    cases v with
    | str s => simp [set_contents, ht]
    | bytes b => exact absurd rfl (hv b)
    | noneVal => simp [set_contents, ht]
    | otherVal => simp [set_contents, ht]

/-- Witness for `contents_type_mismatch_rejected`: bytes assigned to a
text-mode file and a str assigned to a binary-mode file. -/
theorem contents_type_mismatch_rejected_witness :
    set_contents
      { path := "a", opath := "a", contents := some (FileContents.str [104]),
        ftype := FileType.text } (PyVal.bytes [1]) =
      Except.error (PyErr.typeError "contents must be str for text files") ∧
    set_contents
      { path := "a", opath := "a", contents := none,
        ftype := FileType.binary } (PyVal.str [104]) =
      Except.error (PyErr.typeError "contents must be bytes for binary files") :=
  ⟨(contents_type_mismatch_rejected _ _).1 rfl (fun s hs => by cases hs),
   (contents_type_mismatch_rejected _ _).2 rfl (fun b hb => by cases hb)⟩

/-- C9: for a text-mode file holding a UTF-8-encodable string, converting
the mode to binary re-encodes the contents to the UTF-8 bytes (contents
type now matches the binary mode), and converting back to text decodes
them to the original string: the round trip returns exactly the original
file value. -/
theorem type_roundtrip_lossless (f : FileState) (s : List Nat)
    (hT : f.ftype = FileType.text) (hc : f.contents = some (FileContents.str s))
    (hv : ∀ c ∈ s, isScalar c) :
    set_type f FileType.binary =
      Except.ok { f with
        contents := some (FileContents.bytes (utf8_encode s)),
        ftype := FileType.binary } ∧
    (set_type f FileType.binary).bind (fun f2 => set_type f2 FileType.text) =
      Except.ok f := by
  have hall : s.all (fun c => decide (isScalar c)) = true := by
    rw [List.all_eq_true]
    intro x hx
    exact decide_eq_true (hv x hx)
  have henc : str_encode_utf8 s = Except.ok (utf8_encode s) := by
    simp [str_encode_utf8, hall]
  have hdec := utf8_decode_encode s hv
  obtain ⟨fp, fo, fc, ft⟩ := f
  simp only at hT hc
  subst hT
  subst hc
  have h1 : set_type
      { path := fp, opath := fo, contents := some (FileContents.str s),
        ftype := FileType.text } FileType.binary =
      Except.ok
        { path := fp,
          opath := fo,
          contents := some (FileContents.bytes (utf8_encode s)),
          ftype := FileType.binary } := by
    simp [set_type, henc]
  refine ⟨h1, ?_⟩
  rw [h1]
  show set_type
      { path := fp, opath := fo,
        contents := some (FileContents.bytes (utf8_encode s)),
        ftype := FileType.binary } FileType.text = _
  simp [set_type, hdec]

/-- Witness for `type_roundtrip_lossless`: a text file whose contents mix
ASCII with a character above U+FFFF ("Hk" plus U+10348). -/
theorem type_roundtrip_lossless_witness :
    set_type
      { path := "p",
        opath := "p",
        contents := some (FileContents.str [72, 107, 0x10348]),
        ftype := FileType.text } FileType.binary =
      Except.ok
        { path := "p",
          opath := "p",
          contents := some (FileContents.bytes (utf8_encode [72, 107, 0x10348])),
          ftype := FileType.binary } ∧
    (set_type
      { path := "p",
        opath := "p",
        contents := some (FileContents.str [72, 107, 0x10348]),
        ftype := FileType.text } FileType.binary).bind
        (fun f2 => set_type f2 FileType.text) =
      Except.ok
        { path := "p",
          opath := "p",
          contents := some (FileContents.str [72, 107, 0x10348]),
          ftype := FileType.text } :=
  type_roundtrip_lossless _ _ rfl rfl (by decide)

/-- C10: when the original path still exists on disk and the target path
equals the original path (FilePath equality, i.e. equal realpaths), save()
returns False and performs nothing: no directory creation, no write, no
copy, and the file object - contents included - is unchanged.  The
original on-disk file is never rewritten in place. -/
theorem save_unchanged_path_is_noop (w : World) (f : FileState) (append : Bool)
    (h1 : w.pathExists f.opath = true) (h2 : filepath_eq w f.path f.opath = true) :
    file_save w f append = { ret := false, effects := [], file := f } := by
  unfold file_save
  rw [if_pos ⟨h1, h2⟩]

/-- Witness for `save_unchanged_path_is_noop`: a world where "a" exists and
a file whose target and original paths are both "a"; even with modified
contents, save returns False with no effects (matching
test_saving_file_when_contents_changed in src/tests/test_files.py). -/
theorem save_unchanged_path_is_noop_witness :
    file_save
      { pathExists := fun _ => true,
        realpath := id,
        readText := fun _ => [],
        readBytes := fun _ => [] }
      { path := "a",
        opath := "a",
        contents := some (FileContents.str [116, 101, 115, 116]),
        ftype := FileType.text } false =
      { ret := false,
        effects := [],
        file :=
          { path := "a",
            opath := "a",
            contents := some (FileContents.str [116, 101, 115, 116]),
            ftype := FileType.text } } :=
  save_unchanged_path_is_noop _ _ false rfl rfl

end Gena
